import Mathlib

/-!
Verification of the lyric timeline synchronization and frame-export engine.

Times are modelled as exact rationals (`ℚ`); JavaScript numbers appear in the
source only through comparisons and linear arithmetic on timeline values, so
the rational embedding is faithful for every property stated here.
-/

namespace LyricVideo

/-- Data model of a timed lyric line (`TimedLyric` in `types.ts`):
text with a half-open time window `[startTime, endTime)`. -/
structure TimedLyric where
  text : String
  startTime : ℚ
  endTime : ℚ
deriving DecidableEq

/-- Result record of the window-selection computation (`lyricLines` in
`VideoPlayer.tsx`): the previous, current and next displayed lines, each
possibly absent (`null` in the source). -/
structure LyricWindow where
  prev : Option TimedLyric
  current : Option TimedLyric
  next : Option TimedLyric
deriving DecidableEq

/-- Embedding of JavaScript `String.prototype.trim`: remove leading and
trailing whitespace characters. Written structurally over the character
list so that concrete instances evaluate. -/
def jsTrim (s : String) : String :=
  String.mk (((s.data.dropWhile Char.isWhitespace).reverse.dropWhile Char.isWhitespace).reverse)

/-- Predicate for a "real" lyric line: nonempty text after trimming.
Embeds the filter `l.text.trim() !== ''` used by `lyricLines`. -/
def realText (l : TimedLyric) : Bool := decide (jsTrim l.text ≠ "")

/-- List of real lyric lines: `timedLyrics.filter(l => l.text.trim() !== '')`
(`VideoPlayer.tsx` line 129). -/
def realLyricsOf (timedLyrics : List TimedLyric) : List TimedLyric :=
  timedLyrics.filter realText

/-- Index of the first element satisfying `p`, or `none`.
Embeds JavaScript `Array.prototype.findIndex` (with `-1` mapped to `none`). -/
def findIdxQ (p : α → Bool) : List α → Option ℕ
  | [] => none
  | a :: as => if p a then some 0 else (findIdxQ p as).map (· + 1)

/-- Index of the last element satisfying `p`, or `none`.
Embeds the backward `for` scan in `lyricLines` (`VideoPlayer.tsx`
lines 153-159), which walks from the top index down and stops at the first
hit, i.e. returns the largest satisfying index. -/
def lastIdxWith (p : α → Bool) : List α → Option ℕ
  | [] => none
  | a :: as =>
    match lastIdxWith p as with
    | some j => some (j + 1)
    | none => if p a then some 0 else none

/-- Window-selection function used by playback rendering: embeds the
`lyricLines` memo of `VideoPlayer.tsx` (lines 128-169) applied at time `t`.
The branches follow the source in order: empty real-lyric list, before the
first real line, at or past the last real line's end, a line containing `t`
in its half-open window, and finally the gap scan for the nearest finished
line. -/
def lyricWindow (timedLyrics : List TimedLyric) (t : ℚ) : LyricWindow :=
  match (realLyricsOf timedLyrics).head?, (realLyricsOf timedLyrics).getLast? with
  | some first, some lastL =>
    if t < first.startTime then ⟨none, none, some first⟩
    else if lastL.endTime ≤ t then ⟨some lastL, none, none⟩
    else
      match findIdxQ (fun l => decide (l.startTime ≤ t) && decide (t < l.endTime))
          (realLyricsOf timedLyrics) with
      | some i => ⟨if i = 0 then none else (realLyricsOf timedLyrics)[i - 1]?,
          (realLyricsOf timedLyrics)[i]?, (realLyricsOf timedLyrics)[i + 1]?⟩
      | none =>
        match lastIdxWith (fun l => decide (l.endTime ≤ t)) (realLyricsOf timedLyrics) with
        | some j => ⟨(realLyricsOf timedLyrics)[j]?, none, (realLyricsOf timedLyrics)[j + 1]?⟩
        | none => ⟨none, none, none⟩
  | _, _ => ⟨none, none, none⟩

/-- Window-selection computation duplicated inline inside the export loop:
embeds the `currentLyricLines` immediately-invoked closure of `handleExport`
(`VideoPlayer.tsx` lines 276-288) applied at frame time `t`. Transcribed
separately from `lyricWindow` because the source duplicates the logic. -/
def exportLyricWindow (timedLyrics : List TimedLyric) (t : ℚ) : LyricWindow :=
  match (realLyricsOf timedLyrics).head?, (realLyricsOf timedLyrics).getLast? with
  | some first, some lastL =>
    if t < first.startTime then ⟨none, none, some first⟩
    else if lastL.endTime ≤ t then ⟨some lastL, none, none⟩
    else
      match findIdxQ (fun l => decide (l.startTime ≤ t) && decide (t < l.endTime))
          (realLyricsOf timedLyrics) with
      | some i => ⟨if i = 0 then none else (realLyricsOf timedLyrics)[i - 1]?,
          (realLyricsOf timedLyrics)[i]?, (realLyricsOf timedLyrics)[i + 1]?⟩
      | none =>
        match lastIdxWith (fun l => decide (l.endTime ≤ t)) (realLyricsOf timedLyrics) with
        | some j => ⟨(realLyricsOf timedLyrics)[j]?, none, (realLyricsOf timedLyrics)[j + 1]?⟩
        | none => ⟨none, none, none⟩
  | _, _ => ⟨none, none, none⟩

/-- Karaoke reveal fraction computed by the export loop for the current line
(`VideoPlayer.tsx` line 306):
`(frameTime - current.startTime) / (current.endTime - current.startTime)`.
The source applies no clamp and no zero-length guard; this is the raw
formula, only ever evaluated when a current line exists. -/
def karaokeProgress (l : TimedLyric) (t : ℚ) : ℚ :=
  (t - l.startTime) / (l.endTime - l.startTime)

/-- A sample line used in concrete witnesses: `{text:"Hello", start:10, end:12}`. -/
def helloLine : TimedLyric := ⟨"Hello", 10, 12⟩

section IndexLemmas

variable {α : Type*}

theorem findIdxQ_eq_none_iff (p : α → Bool) (l : List α) :
    findIdxQ p l = none ↔ ∀ a ∈ l, p a = false := by
  induction l with
  | nil => simp [findIdxQ]
  | cons a as ih =>
    by_cases h : p a <;> simp [findIdxQ, h, ih]

theorem findIdxQ_eq_some_iff (p : α → Bool) (l : List α) (i : ℕ) :
    findIdxQ p l = some i ↔
      (l[i]?.any p = true ∧ ∀ k, k < i → l[k]?.any p = false) := by
  induction l generalizing i with
  | nil => simp [findIdxQ]
  | cons a as ih =>
    cases hpa : p a with
    | true =>
      simp only [findIdxQ, hpa, if_pos]
      constructor
      · intro hj
        cases hj
        simp [hpa]
      · rintro ⟨_, hmin⟩
        rcases Nat.eq_zero_or_pos i with rfl | hpos
        · rfl
        · have := hmin 0 hpos
          simp [hpa] at this
    | false =>
      simp only [findIdxQ, hpa, Bool.false_eq_true, if_neg, not_false_eq_true]
      constructor
      · intro hmap
        rcases Option.map_eq_some'.mp hmap with ⟨j, hj, rfl⟩
        rcases (ih j).mp hj with ⟨hany, hmin⟩
        refine ⟨by simpa using hany, ?_⟩
        intro k hk
        cases k with
        | zero => simp [hpa]
        | succ k => simpa using hmin k (by omega)
      · rintro ⟨hany, hmin⟩
        cases i with
        | zero => simp [hpa] at hany
        | succ i =>
          have : findIdxQ p as = some i :=
            (ih i).mpr ⟨by simpa using hany, fun k hk => by simpa using hmin (k + 1) (by omega)⟩
          simp [this]

theorem lastIdxWith_eq_none_iff (p : α → Bool) (l : List α) :
    lastIdxWith p l = none ↔ ∀ a ∈ l, p a = false := by
  induction l with
  | nil => simp [lastIdxWith]
  | cons a as ih =>
    rw [lastIdxWith]
    rcases hla : lastIdxWith p as with _ | j
    · by_cases h : p a <;> simp [h, ← ih, hla]
    · simp only [reduceCtorEq, false_iff, not_forall]
      have : ¬ ∀ a ∈ as, p a = false := by rw [← ih]; simp [hla]
      push_neg at this
      rcases this with ⟨x, hx, hpx⟩
      exact ⟨x, by simp [hx], by simpa using hpx⟩

theorem anyGetElem_eq_false_of_all {p : α → Bool} {l : List α}
    (hall : ∀ x ∈ l, p x = false) (k : ℕ) : l[k]?.any p = false := by
  rcases hk : l[k]? with _ | x
  · rfl
  · simp [hall x (List.getElem?_mem hk)]

theorem lastIdxWith_eq_some_iff (p : α → Bool) (l : List α) (j : ℕ) :
    lastIdxWith p l = some j ↔
      (l[j]?.any p = true ∧ ∀ k, j < k → l[k]?.any p = false) := by
  induction l generalizing j with
  | nil => simp [lastIdxWith]
  | cons a as ih =>
    rw [lastIdxWith]
    rcases hla : lastIdxWith p as with _ | j'
    · have hall : ∀ x ∈ as, p x = false := (lastIdxWith_eq_none_iff p as).mp hla
      cases hpa : p a with
      | true =>
        simp only [hpa, if_pos]
        constructor
        · intro hj
          cases hj
          refine ⟨by simp [hpa], ?_⟩
          intro k hk
          cases k with
          | zero => omega
          | succ k => simpa using anyGetElem_eq_false_of_all hall k
        · rintro ⟨hany, _⟩
          cases j with
          | zero => rfl
          | succ j =>
            have : as[j]?.any p = true := by simpa using hany
            rw [anyGetElem_eq_false_of_all hall j] at this
            exact absurd this (by simp)
      | false =>
        simp only [hpa, Bool.false_eq_true, if_neg, not_false_eq_true, reduceCtorEq, false_iff,
          not_and]
        intro hany
        cases j with
        | zero => simp [hpa] at hany
        | succ j =>
          have : as[j]?.any p = true := by simpa using hany
          rw [anyGetElem_eq_false_of_all hall j] at this
          exact absurd this (by simp)
    · rcases (ih j').mp hla with ⟨hany, hmin⟩
      constructor
      · intro hj
        cases hj
        refine ⟨by simpa using hany, ?_⟩
        intro k hk
        cases k with
        | zero => omega
        | succ k => simpa using hmin k (by omega)
      · rintro ⟨hany2, hmin2⟩
        cases j with
        | zero =>
          have := hmin2 (j' + 1) (by omega)
          simp only [List.getElem?_cons_succ] at this
          rw [this] at hany
          exact absurd hany (by simp)
        | succ j =>
          have : lastIdxWith p as = some j :=
            (ih j).mpr ⟨by simpa using hany2, fun k hk => by simpa using hmin2 (k + 1) (by omega)⟩
          rw [hla] at this
          simpa using this

end IndexLemmas

section WindowClassification

/-- Under the ordering invariants (each window well formed, consecutive
windows non-overlapping), an earlier line's end never exceeds a later
line's start. -/
theorem end_le_start_of_lt {ls : List TimedLyric}
    (hwf : ∀ l ∈ ls, l.startTime ≤ l.endTime)
    (hchain : ls.Chain' (fun a b => a.endTime ≤ b.startTime))
    {i j : ℕ} (hij : i < j) (hj : j < ls.length) :
    (ls.get ⟨i, by omega⟩).endTime ≤ (ls.get ⟨j, hj⟩).startTime := by
  induction j with
  | zero => omega
  | succ j ih =>
    rcases Nat.lt_succ_iff_lt_or_eq.mp hij with h | h
    · have h1 := ih h (by omega)
      have h2 : (ls.get ⟨j, by omega⟩).startTime ≤ (ls.get ⟨j, by omega⟩).endTime :=
        hwf _ (by apply List.get_mem)
      have h3 := List.chain'_iff_get.mp hchain j (by omega)
      exact le_trans h1 (le_trans h2 h3)
    · subst h
      exact List.chain'_iff_get.mp hchain i (by omega)

/-- Unfolding of `lyricWindow` over a nonempty sequence of real lines:
the filter is the identity and the head/last options are present. -/
theorem lyricWindow_eq_body (ls : List TimedLyric) (t : ℚ) (h0 : ls ≠ [])
    (hreal : ∀ l ∈ ls, realText l = true) :
    lyricWindow ls t =
      (if t < (ls.head h0).startTime then ⟨none, none, some (ls.head h0)⟩
       else if (ls.getLast h0).endTime ≤ t then ⟨some (ls.getLast h0), none, none⟩
       else
         match findIdxQ (fun l => decide (l.startTime ≤ t) && decide (t < l.endTime)) ls with
         | some i => ⟨if i = 0 then none else ls[i - 1]?, ls[i]?, ls[i + 1]?⟩
         | none =>
           match lastIdxWith (fun l => decide (l.endTime ≤ t)) ls with
           | some j => ⟨ls[j]?, none, ls[j + 1]?⟩
           | none => ⟨none, none, none⟩) := by
  have hfilter : realLyricsOf ls = ls := List.filter_eq_self.mpr hreal
  rw [lyricWindow, hfilter, List.head?_eq_head h0, List.getLast?_eq_getLast _ h0]

theorem any_getElem_eq_true_iff {α : Type*} {p : α → Bool} {l : List α} {i : ℕ} :
    l[i]?.any p = true ↔ ∃ h : i < l.length, p l[i] = true := by
  constructor
  · intro hany
    rcases hx : l[i]? with _ | x
    · rw [hx] at hany
      simp at hany
    · rcases List.getElem?_eq_some.mp hx with ⟨hlt, rfl⟩
      rw [hx] at hany
      exact ⟨hlt, by simpa using hany⟩
  · rintro ⟨hlt, hp⟩
    rw [List.getElem?_eq_getElem hlt]
    simpa using hp

theorem any_getElem_eq_false_elim {α : Type*} {p : α → Bool} {l : List α} {k : ℕ}
    (h : l[k]?.any p = false) (hk : k < l.length) : p l[k] = false := by
  rw [List.getElem?_eq_getElem hk] at h
  simpa using h

/-- C1. For every sequence of real lyric lines sorted by `startTime` with
non-overlapping half-open windows and every time `t`, the window-selection
function returns exactly one of the four boundary classes with the
specified contents: the before-first, after-last and in-line classes are
pairwise exclusive (conjuncts 1 and 2), each class determines the stated
result (conjuncts 3-5), and in the residual gap class the nearest line
with `endTime ≤ t` becomes `previous` with its successor as `next` and no
`current` (conjunct 6). Interval membership is `startTime ≤ t < endTime`. -/
theorem lyric_window_boundary_classification
    (ls : List TimedLyric) (t : ℚ)
    (h0 : ls ≠ [])
    (hreal : ∀ l ∈ ls, realText l = true)
    (hwf : ∀ l ∈ ls, l.startTime ≤ l.endTime)
    (hchain : ls.Chain' (fun a b => a.endTime ≤ b.startTime)) :
    (¬ (t < (ls.head h0).startTime ∧ (ls.getLast h0).endTime ≤ t))
    ∧ (∀ i (hi : i < ls.length), ls[i].startTime ≤ t → t < ls[i].endTime →
        ¬ t < (ls.head h0).startTime ∧ ¬ (ls.getLast h0).endTime ≤ t)
    ∧ (t < (ls.head h0).startTime →
        lyricWindow ls t = ⟨none, none, some (ls.head h0)⟩)
    ∧ ((ls.getLast h0).endTime ≤ t →
        lyricWindow ls t = ⟨some (ls.getLast h0), none, none⟩)
    ∧ (∀ i (hi : i < ls.length), ls[i].startTime ≤ t → t < ls[i].endTime →
        lyricWindow ls t = ⟨if i = 0 then none else some ls[i - 1], some ls[i], ls[i + 1]?⟩)
    ∧ ((¬ t < (ls.head h0).startTime) → (¬ (ls.getLast h0).endTime ≤ t) →
        (∀ i (hi : i < ls.length), ¬ (ls[i].startTime ≤ t ∧ t < ls[i].endTime)) →
        ∃ j, ∃ hj : j + 1 < ls.length, ls[j].endTime ≤ t ∧
          (∀ k (hk : k < ls.length), j < k → ¬ ls[k].endTime ≤ t) ∧
          lyricWindow ls t = ⟨some ls[j], none, some ls[j + 1]⟩) := by
  have hn : 0 < ls.length := List.length_pos.mpr h0
  have hhead : ls.head h0 = ls[0] := List.head_eq_getElem_zero h0
  have hlast : ls.getLast h0 = ls[ls.length - 1] := List.getLast_eq_getElem ls h0
  have hmono : ∀ {i j : ℕ} (hij : i < j) (hj : j < ls.length),
      ls[i].endTime ≤ ls[j].startTime := by
    intro i j hij hj
    simpa [List.get_eq_getElem] using end_le_start_of_lt hwf hchain hij hj
  have hstart0 : ∀ i (hi : i < ls.length), ls[0].startTime ≤ ls[i].startTime := by
    intro i hi
    rcases Nat.eq_zero_or_pos i with rfl | hpos
    · exact le_refl _
    · exact le_trans (hwf _ (List.getElem_mem hn)) (hmono hpos hi)
  have hendLast : ∀ i (hi : i < ls.length), ls[i].endTime ≤ ls[ls.length - 1].endTime := by
    intro i hi
    rcases Nat.lt_or_ge i (ls.length - 1) with hlt | hge
    · exact le_trans (hmono hlt (by omega)) (hwf _ (List.getElem_mem (by omega)))
    · have : i = ls.length - 1 := by omega
      subst this
      exact le_refl _
  have hexcl1 : ¬ (t < (ls.head h0).startTime ∧ (ls.getLast h0).endTime ≤ t) := by
    rintro ⟨hA, hB⟩
    rw [hhead] at hA
    rw [hlast] at hB
    have h1 : ls[0].startTime ≤ ls[ls.length - 1].endTime :=
      le_trans (hwf _ (List.getElem_mem hn))
        (hendLast 0 hn)
    linarith
  have hexcl2 : ∀ i (hi : i < ls.length), ls[i].startTime ≤ t → t < ls[i].endTime →
      ¬ t < (ls.head h0).startTime ∧ ¬ (ls.getLast h0).endTime ≤ t := by
    intro i hi hs he
    constructor
    · rw [hhead]
      push_neg
      exact le_trans (hstart0 i hi) hs
    · rw [hlast]
      push_neg
      exact lt_of_lt_of_le he (hendLast i hi)
  refine ⟨hexcl1, hexcl2, ?_, ?_, ?_, ?_⟩
  · intro hA
    rw [lyricWindow_eq_body ls t h0 hreal, if_pos hA]
  · intro hB
    have hA : ¬ t < (ls.head h0).startTime := fun hA => hexcl1 ⟨hA, hB⟩
    rw [lyricWindow_eq_body ls t h0 hreal, if_neg hA, if_pos hB]
  · intro i hi hs he
    rcases hexcl2 i hi hs he with ⟨hA, hB⟩
    rw [lyricWindow_eq_body ls t h0 hreal, if_neg hA, if_neg hB]
    rcases hf : findIdxQ (fun l => decide (l.startTime ≤ t) && decide (t < l.endTime)) ls
      with _ | i0
    · exfalso
      have := (findIdxQ_eq_none_iff _ _).mp hf _ (List.getElem_mem hi)
      simp only [Bool.and_eq_true, decide_eq_true_eq] at this
      rw [Bool.and_eq_false_iff] at this
      rcases this with h | h <;> simp only [decide_eq_false_iff_not] at h <;> [exact h hs;
        exact h he]
    · rcases (findIdxQ_eq_some_iff _ _ _).mp hf with ⟨hany, hmin⟩
      rcases any_getElem_eq_true_iff.mp hany with ⟨hi0, hp0⟩
      simp only [Bool.and_eq_true, decide_eq_true_eq] at hp0
      have hieq : i = i0 := by
        by_contra hne
        rcases Nat.lt_or_ge i i0 with hlt | hge
        · have hfalse := any_getElem_eq_false_elim (hmin i hlt) hi
          simp only [Bool.and_eq_false_iff, decide_eq_false_iff_not] at hfalse
          rcases hfalse with h | h
          · exact h hs
          · exact h he
        · have hlt : i0 < i := by omega
          have := hmono hlt hi
          linarith [hp0.1, hp0.2]
      subst hieq
      have h1 : ls[i]? = some ls[i] := List.getElem?_eq_getElem hi
      rw [hf]
      rcases Nat.eq_zero_or_pos i with rfl | hpos
      · simp [h1]
      · have h2 : ls[i - 1]? = some ls[i - 1] := List.getElem?_eq_getElem (by omega)
        simp [h1, h2, Nat.pos_iff_ne_zero.mp hpos]
  · intro hA hB hnoc
    rw [lyricWindow_eq_body ls t h0 hreal, if_neg hA, if_neg hB]
    have hf : findIdxQ (fun l => decide (l.startTime ≤ t) && decide (t < l.endTime)) ls
        = none := by
      rw [findIdxQ_eq_none_iff]
      intro a ha
      rcases List.mem_iff_getElem.mp ha with ⟨i, hi, rfl⟩
      have := hnoc i hi
      simp only [Bool.and_eq_false_iff, decide_eq_false_iff_not]
      tauto
    rw [hf]
    have h00 : decide (ls[0].endTime ≤ t) = true := by
      rw [hhead] at hA
      push_neg at hA
      have := hnoc 0 hn
      push_neg at this
      exact decide_eq_true (this hA)
    rcases hl : lastIdxWith (fun l => decide (l.endTime ≤ t)) ls with _ | j
    · exfalso
      have := (lastIdxWith_eq_none_iff _ _).mp hl _ (List.getElem_mem hn)
      rw [h00] at this
      cases this
    · rcases (lastIdxWith_eq_some_iff _ _ _).mp hl with ⟨hany, hmax⟩
      rcases any_getElem_eq_true_iff.mp hany with ⟨hj, hpj⟩
      simp only [decide_eq_true_eq] at hpj
      have hjlt : j + 1 < ls.length := by
        rcases Nat.lt_or_ge (j + 1) ls.length with h | h
        · exact h
        · exfalso
          have : j = ls.length - 1 := by omega
          subst this
          rw [hlast] at hB
          exact hB hpj
      refine ⟨j, hjlt, hpj, ?_, ?_⟩
      · intro k hk hjk hke
        have hfalse := any_getElem_eq_false_elim (hmax k hjk) hk
        simp only [decide_eq_false_iff_not] at hfalse
        exact hfalse hke
      · rw [hl]
        simp [List.getElem?_eq_getElem hj, List.getElem?_eq_getElem hjlt]

/-- Witness for C1 at the spec's round-trip example `{text:"Hello", start:10,
end:12}`: next at `t = 9.999`, current with progress 0 at `t = 10`, previous
at `t = 12`. -/
theorem lyric_window_boundary_classification_witness :
    lyricWindow [helloLine] (9999/1000) = ⟨none, none, some helloLine⟩
    ∧ lyricWindow [helloLine] 10 = ⟨none, some helloLine, none⟩
    ∧ karaokeProgress helloLine 10 = 0
    ∧ lyricWindow [helloLine] 12 = ⟨some helloLine, none, none⟩ := by
  have h0 : ([helloLine] : List TimedLyric) ≠ [] := by simp
  have hreal : ∀ l ∈ [helloLine], realText l = true := by
    intro l hl
    rw [List.mem_singleton] at hl
    subst hl
    rfl
  have hwf : ∀ l ∈ [helloLine], l.startTime ≤ l.endTime := by
    intro l hl
    rw [List.mem_singleton] at hl
    subst hl
    norm_num [helloLine]
  have hchain : ([helloLine] : List TimedLyric).Chain' (fun a b => a.endTime ≤ b.startTime) := by
    simp
  refine ⟨?_, ?_, ?_, ?_⟩
  · have h := (lyric_window_boundary_classification [helloLine] (9999/1000) h0 hreal hwf
      hchain).2.2.1 (by norm_num [helloLine])
    simpa using h
  · have h := (lyric_window_boundary_classification [helloLine] 10 h0 hreal hwf
      hchain).2.2.2.2.1 0 (by norm_num) (by norm_num [helloLine]) (by norm_num [helloLine])
    simpa using h
  · norm_num [karaokeProgress, helloLine]
  · have h := (lyric_window_boundary_classification [helloLine] 12 h0 hreal hwf
      hchain).2.2.2.1 (by norm_num [helloLine])
    simpa using h

/-- Any line occurring in a component of the window-selection result is an
element of the filtered real-lyric list. -/
theorem lyricWindow_component_mem (ls : List TimedLyric) (t : ℚ) (x : TimedLyric)
    (hdisj : (lyricWindow ls t).prev = some x ∨ (lyricWindow ls t).current = some x
      ∨ (lyricWindow ls t).next = some x) :
    x ∈ realLyricsOf ls := by
  unfold lyricWindow at hdisj
  split at hdisj
  case _ first lastL hh hg =>
    have hfirst : first ∈ realLyricsOf ls := List.mem_of_mem_head? hh
    have hlastL : lastL ∈ realLyricsOf ls := List.mem_of_mem_getLast? hg
    by_cases hA : t < first.startTime
    · rw [if_pos hA] at hdisj
      simp only [reduceCtorEq, Option.some.injEq, false_or, or_false] at hdisj
      exact hdisj ▸ hfirst
    · rw [if_neg hA] at hdisj
      by_cases hB : lastL.endTime ≤ t
      · rw [if_pos hB] at hdisj
        simp only [Option.some.injEq, reduceCtorEq, false_or, or_false] at hdisj
        exact hdisj ▸ hlastL
      · rw [if_neg hB] at hdisj
        rcases hf : findIdxQ (fun l => decide (l.startTime ≤ t) && decide (t < l.endTime))
            (realLyricsOf ls) with _ | i <;> rw [hf] at hdisj <;>
          simp only [] at hdisj
        · rcases hl : lastIdxWith (fun l => decide (l.endTime ≤ t)) (realLyricsOf ls)
              with _ | j <;> rw [hl] at hdisj <;> simp only [] at hdisj
          · simp at hdisj
          · simp only [reduceCtorEq, false_or] at hdisj
            rcases hdisj with h | h
            · exact List.getElem?_mem h
            · exact List.getElem?_mem h
        · rcases hdisj with h | h | h
          · rcases Nat.eq_zero_or_pos i with rfl | hpos
            · rw [if_pos rfl] at h
              exact absurd h (by simp)
            · rw [if_neg (by omega)] at h
              exact List.getElem?_mem h
          · exact List.getElem?_mem h
          · exact List.getElem?_mem h
  case _ =>
    simp at hdisj

/-- C2. Lines whose text is empty after trimming never appear as previous,
current or next in the window-selection result (selection operates only over
the filtered real lines), and on the sequence
`[{text:"", 0, 5}, {text:"A", 5, 8}]` queried at `t = 3` the result is
`previous = absent, current = absent, next = line "A"`. -/
theorem lyric_window_excludes_silent_lines :
    (∀ (ls : List TimedLyric) (t : ℚ),
      (lyricWindow ls t).prev.all realText = true
      ∧ (lyricWindow ls t).current.all realText = true
      ∧ (lyricWindow ls t).next.all realText = true)
    ∧ lyricWindow [⟨"", 0, 5⟩, ⟨"A", 5, 8⟩] 3 = ⟨none, none, some ⟨"A", 5, 8⟩⟩ := by
  constructor
  · intro ls t
    have key : ∀ (o : Option TimedLyric),
        ((lyricWindow ls t).prev = o ∨ (lyricWindow ls t).current = o
          ∨ (lyricWindow ls t).next = o) → o.all realText = true := by
      intro o ho
      rcases o with _ | x
      · rfl
      · have hx : x ∈ realLyricsOf ls := lyricWindow_component_mem ls t x ho
        have := (List.mem_filter.mp hx).2
        simpa [Option.all] using this
    exact ⟨key _ (Or.inl rfl), key _ (Or.inr (Or.inl rfl)), key _ (Or.inr (Or.inr rfl))⟩
  · norm_num [lyricWindow, realLyricsOf, findIdxQ, lastIdxWith,
      show realText ⟨"", 0, 5⟩ = false from rfl, show realText ⟨"A", 5, 8⟩ = true from rfl]

/-- C3. Whenever the window selection yields a current line, the queried
time lies in the line's half-open window, the window has positive length
(so the divisor is nonzero: a degenerate line is never current and no
division by zero can occur), and the raw reveal fraction computed by the
export loop already equals its clamp to `[0, 1]`, lying in `[0, 1)`. -/
theorem karaoke_progress_clamped (ls : List TimedLyric) (t : ℚ) (c : TimedLyric)
    (hc : (lyricWindow ls t).current = some c) :
    c.startTime ≤ t ∧ t < c.endTime ∧ c.startTime < c.endTime
    ∧ karaokeProgress c t = max 0 (min 1 ((t - c.startTime) / (c.endTime - c.startTime)))
    ∧ 0 ≤ karaokeProgress c t ∧ karaokeProgress c t < 1 := by
  have hmain : c.startTime ≤ t ∧ t < c.endTime := by
    unfold lyricWindow at hc
    split at hc
    case _ first lastL hh hg =>
      by_cases hA : t < first.startTime
      · rw [if_pos hA] at hc
        simp at hc
      · rw [if_neg hA] at hc
        by_cases hB : lastL.endTime ≤ t
        · rw [if_pos hB] at hc
          simp at hc
        · rw [if_neg hB] at hc
          rcases hf : findIdxQ (fun l => decide (l.startTime ≤ t) && decide (t < l.endTime))
              (realLyricsOf ls) with _ | i <;> rw [hf] at hc <;> simp only [] at hc
          · rcases hl : lastIdxWith (fun l => decide (l.endTime ≤ t)) (realLyricsOf ls)
                with _ | j <;> rw [hl] at hc <;> simp at hc
          · rcases (findIdxQ_eq_some_iff _ _ _).mp hf with ⟨hany, _⟩
            rcases any_getElem_eq_true_iff.mp hany with ⟨hi, hp⟩
            have hcc : c = (realLyricsOf ls)[i] := by
              have hsome := List.getElem?_eq_getElem hi
              rw [hsome] at hc
              simpa using hc.symm
            subst hcc
            simpa using hp
    case _ =>
      simp at hc
  rcases hmain with ⟨hs, he⟩
  have hlt : c.startTime < c.endTime := lt_of_le_of_lt hs he
  have hpos : (0 : ℚ) < c.endTime - c.startTime := by linarith
  have h0 : 0 ≤ karaokeProgress c t :=
    div_nonneg (by linarith) (le_of_lt hpos)
  have h1 : karaokeProgress c t < 1 := by
    rw [karaokeProgress, div_lt_one hpos]
    linarith
  refine ⟨hs, he, hlt, ?_, h0, h1⟩
  rw [karaokeProgress] at h0 h1 ⊢
  rw [min_eq_right (le_of_lt h1), max_eq_right h0]

/-- Witness for C3 at the round-trip example: at `t = 11` the line "Hello"
is current and the reveal fraction is `1/2`, within `[0, 1)`. -/
theorem karaoke_progress_clamped_witness :
    (lyricWindow [helloLine] 11).current = some helloLine
    ∧ 0 ≤ karaokeProgress helloLine 11 ∧ karaokeProgress helloLine 11 < 1
    ∧ karaokeProgress helloLine 11 = 1/2 := by
  have hw : lyricWindow [helloLine] 11 = ⟨none, some helloLine, none⟩ := by
    norm_num [lyricWindow, realLyricsOf, findIdxQ, helloLine,
      show realText ⟨"Hello", 10, 12⟩ = true from rfl]
  have hc : (lyricWindow [helloLine] 11).current = some helloLine := by rw [hw]
  have h := karaoke_progress_clamped [helloLine] 11 helloLine hc
  exact ⟨hc, h.2.2.2.2.1, h.2.2.2.2.2, by norm_num [karaokeProgress, helloLine]⟩

/-- C4. The playback window-selection computation and the per-frame
window-selection computation duplicated inside the export loop return equal
results for every lyric sequence and every time; the two consumers agree on
lyric-window selection at every boundary condition. The proof is definitional
because the source duplicates the branching logic verbatim. -/
theorem export_window_agrees_with_playback (ls : List TimedLyric) (t : ℚ) :
    exportLyricWindow ls t = lyricWindow ls t := rfl

end WindowClassification

section BackgroundSelector

/-- Data model of a timed background asset (`AiImage` in `VideoPlayer.tsx`):
an opaque url reference with a half-open time window. -/
structure AiImage where
  url : String
  startTime : ℚ
  endTime : ℚ
deriving DecidableEq

/-- Background url chosen per frame by the export loop (`VideoPlayer.tsx`
lines 249-251): with a nonempty AI-image list, the first image whose window
contains the frame time, then its url; JavaScript `||` sends both an
`undefined` find result and an empty url string to the first image's url.
With no AI images, the static `imageUrl` is used. -/
def exportBgUrl (aiImages : List AiImage) (imageUrl : String) (t : ℚ) : String :=
  if 0 < aiImages.length then
    match aiImages.find? (fun img => decide (img.startTime ≤ t) && decide (t < img.endTime)) with
    | some img => if img.url = "" then (aiImages.headD ⟨"", 0, 0⟩).url else img.url
    | none => (aiImages.headD ⟨"", 0, 0⟩).url
  else imageUrl

/-- Background url chosen by playback rendering (the `currentBg` memo,
`VideoPlayer.tsx` lines 374-379): the image at the found index (the `||` on
an out-of-range index yields the first image), then its url; JavaScript `||`
sends an empty url string to the static `imageUrl`. -/
def currentBgUrl (aiImages : List AiImage) (imageUrl : String) (t : ℚ) : String :=
  if aiImages.length = 0 then imageUrl
  else
    match findIdxQ (fun img => decide (img.startTime ≤ t) && decide (t < img.endTime)) aiImages with
    | some i =>
      if (aiImages.getD i ⟨"", 0, 0⟩).url = "" then imageUrl
      else (aiImages.getD i ⟨"", 0, 0⟩).url
    | none =>
      if (aiImages.headD ⟨"", 0, 0⟩).url = "" then imageUrl
      else (aiImages.headD ⟨"", 0, 0⟩).url

/-- The first-match index search and `Array.prototype.find` agree: the found
element is the element at the found index. -/
theorem find?_eq_findIdxQ_bind {α : Type*} (p : α → Bool) (l : List α) :
    l.find? p = (findIdxQ p l).bind (fun i => l[i]?) := by
  induction l with
  | nil => rfl
  | cons a as ih =>
    cases hpa : p a with
    | true => simp [List.find?, findIdxQ, hpa]
    | false =>
      simp only [List.find?, findIdxQ, hpa, Bool.false_eq_true, if_neg, not_false_eq_true]
      rw [ih]
      rcases findIdxQ p as with _ | i <;> simp

/-- When `find?` fails, the first-match index search fails too. -/
theorem findIdxQ_eq_none_of_find?_eq_none {α : Type*} {p : α → Bool} {l : List α}
    (h : l.find? p = none) : findIdxQ p l = none := by
  rw [findIdxQ_eq_none_iff]
  intro a ha
  simpa using List.find?_eq_none.mp h a ha

/-- When `find?` succeeds, the first-match index search returns an in-range
index holding the found element. -/
theorem findIdxQ_of_find?_eq_some {α : Type*} {p : α → Bool} {l : List α} {a : α}
    (h : l.find? p = some a) :
    ∃ i, ∃ hi : i < l.length, findIdxQ p l = some i ∧ l[i] = a := by
  rw [find?_eq_findIdxQ_bind] at h
  rcases hidx : findIdxQ p l with _ | i <;> rw [hidx] at h
  · exact Option.noConfusion h
  · have h2 : l[i]? = some a := h
    rcases List.getElem?_eq_some.mp h2 with ⟨hi, rfl⟩
    exact ⟨i, hi, rfl, rfl⟩

/-- C5 counterexample. With assets `[{url:"A",[0,1)}, {url:"",[1,2)}]` at
`t = 3/2` and fallback url `"F"`, the first (and only) asset whose window
contains `t` is the second one, whose url is the empty string; yet the
export selector returns `"A"` (the first asset's url) and the playback
selector returns the fallback `"F"`: the selector does not return the
matching asset, because JavaScript `||` treats its empty url as falsy. -/
theorem background_selector_counterexample :
    ([⟨"A", 0, 1⟩, ⟨"", 1, 2⟩] : List AiImage).find?
        (fun img => decide (img.startTime ≤ (3/2 : ℚ)) && decide ((3/2 : ℚ) < img.endTime))
      = some ⟨"", 1, 2⟩
    ∧ exportBgUrl [⟨"A", 0, 1⟩, ⟨"", 1, 2⟩] "F" (3/2) = "A"
    ∧ currentBgUrl [⟨"A", 0, 1⟩, ⟨"", 1, 2⟩] "F" (3/2) = "F" := by
  refine ⟨?_, ?_, ?_⟩ <;>
    norm_num [exportBgUrl, currentBgUrl, findIdxQ, List.find?]

/-- C5 amended. Provided every asset carries a nonempty url, both selectors
return the fallback on an empty asset list (for any `t`), the first asset
whose window satisfies `startTime ≤ t < endTime` when one exists, and the
first asset of the list (not the fallback) when no window contains `t`. -/
theorem background_selector_spec (aiImages : List AiImage) (imageUrl : String) (t : ℚ)
    (hurl : ∀ a ∈ aiImages, a.url ≠ "") :
    (aiImages = [] → exportBgUrl aiImages imageUrl t = imageUrl
        ∧ currentBgUrl aiImages imageUrl t = imageUrl)
    ∧ (∀ a, aiImages.find?
          (fun img => decide (img.startTime ≤ t) && decide (t < img.endTime)) = some a →
        a.startTime ≤ t ∧ t < a.endTime
        ∧ exportBgUrl aiImages imageUrl t = a.url
        ∧ currentBgUrl aiImages imageUrl t = a.url)
    ∧ (aiImages ≠ [] →
        aiImages.find?
          (fun img => decide (img.startTime ≤ t) && decide (t < img.endTime)) = none →
        exportBgUrl aiImages imageUrl t = (aiImages.headD ⟨"", 0, 0⟩).url
        ∧ currentBgUrl aiImages imageUrl t = (aiImages.headD ⟨"", 0, 0⟩).url) := by
  refine ⟨?_, ?_, ?_⟩
  · rintro rfl
    constructor <;> rfl
  · intro a hfind
    have hmem : a ∈ aiImages := List.mem_of_find?_eq_some hfind
    have hne : aiImages ≠ [] := by
      intro h
      rw [h] at hmem
      simp at hmem
    have hlen : 0 < aiImages.length := List.length_pos.mpr hne
    have hp := List.find?_some hfind
    simp only [Bool.and_eq_true, decide_eq_true_eq] at hp
    have haurl : a.url ≠ "" := hurl a hmem
    refine ⟨hp.1, hp.2, ?_, ?_⟩
    · rw [exportBgUrl, if_pos hlen, hfind]
      simp [haurl]
    · rcases findIdxQ_of_find?_eq_some hfind with ⟨i, hi, hidx, hget0⟩
      rw [currentBgUrl, if_neg (by omega), hidx]
      simp [List.getElem?_eq_getElem hi, hget0, haurl]
  · intro hne hfind
    have hlen : 0 < aiImages.length := List.length_pos.mpr hne
    have hidx := findIdxQ_eq_none_of_find?_eq_none hfind
    have h0url : (aiImages.headD ⟨"", 0, 0⟩).url ≠ "" := by
      rcases aiImages with _ | ⟨a0, rest⟩
      · simp at hne
      · simpa using hurl a0 (by simp)
    constructor
    · rw [exportBgUrl, if_pos hlen, hfind]
    · rw [currentBgUrl, if_neg (by omega), hidx]
      have h0url2 : (aiImages.head?.getD ⟨"", 0, 0⟩).url ≠ "" := by
        rw [← List.headD_eq_head?_getD]
        exact h0url
      simp [List.headD_eq_head?_getD, h0url2]

/-- Witness for C5 at concrete inputs: a single asset `{url:"X",[0,5)}`
queried past its window at `t = 10` yields the first asset's url on both
paths, and the empty asset list yields the fallback. -/
theorem background_selector_spec_witness :
    exportBgUrl [⟨"X", 0, 5⟩] "F" 10 = "X"
    ∧ currentBgUrl [⟨"X", 0, 5⟩] "F" 10 = "X"
    ∧ exportBgUrl [] "F" (-3) = "F"
    ∧ currentBgUrl [] "F" (-3) = "F" := by
  have hurl : ∀ a ∈ ([⟨"X", 0, 5⟩] : List AiImage), a.url ≠ "" := by
    intro a ha
    rw [List.mem_singleton] at ha
    subst ha
    simp
  have hfind : ([⟨"X", 0, 5⟩] : List AiImage).find?
      (fun img => decide (img.startTime ≤ (10 : ℚ)) && decide ((10 : ℚ) < img.endTime)) = none := by
    norm_num [List.find?]
  have h1 := (background_selector_spec [⟨"X", 0, 5⟩] "F" 10 hurl).2.2 (by simp) hfind
  have h2 := (background_selector_spec [] "F" (-3) (by simp)).1 rfl
  exact ⟨h1.1, h1.2, h2.1, h2.2⟩

end BackgroundSelector

section FrameSchedule

/-- Total frame count of an export (`VideoPlayer.tsx` line 219):
`Math.floor(duration * frameRate)`. The source fixes `frameRate = 30`; the
definition keeps it as a parameter instantiated by `exportFrameRate`. -/
def totalFramesOf (duration frameRate : ℚ) : ℤ := ⌊duration * frameRate⌋

/-- The fixed export frame rate of the source (`const frameRate = 30`). -/
def exportFrameRate : ℚ := 30

/-- Ordered list of sampled frame times of the export `for` loop
(`VideoPlayer.tsx` lines 238-239): frame `i` is sampled at `i / frameRate`
for `i = 0, 1, ..., totalFrames - 1` in increasing order. -/
def exportFrameTimes (duration frameRate : ℚ) : List ℚ :=
  (List.range (totalFramesOf duration frameRate).toNat).map (fun i : ℕ => (i : ℚ) / frameRate)

/-- C6. For every nonnegative duration and positive frame rate, the export
renders exactly `floor(duration * frameRate)` frames, the sampled times are
strictly increasing, and frame `i` is sampled at time `i / frameRate`. -/
theorem export_frame_schedule (duration frameRate : ℚ)
    (hd : 0 ≤ duration) (hf : 0 < frameRate) :
    ((exportFrameTimes duration frameRate).length : ℤ) = totalFramesOf duration frameRate
    ∧ (exportFrameTimes duration frameRate).Pairwise (· < ·)
    ∧ (∀ i (hi : i < (exportFrameTimes duration frameRate).length),
        (exportFrameTimes duration frameRate)[i] = (i : ℚ) / frameRate) := by
  refine ⟨?_, ?_, ?_⟩
  · have hlen : (exportFrameTimes duration frameRate).length
        = (totalFramesOf duration frameRate).toNat := by
      simp [exportFrameTimes]
    rw [hlen]
    exact Int.toNat_of_nonneg (Int.le_floor.mpr (by simpa using mul_nonneg hd hf.le))
  · rw [exportFrameTimes]
    refine List.Pairwise.map _ ?_ (List.pairwise_lt_range _)
    intro a b hab
    exact div_lt_div_of_pos_right (by exact_mod_cast hab) hf
  · intro i hi
    simp only [exportFrameTimes, List.getElem_map, List.getElem_range]

/-- Witness for C6 at the spec's example: a 2.0 s export at 30 fps has
exactly 60 frames and frame `i = 30` is sampled at `t = 1`. -/
theorem export_frame_schedule_witness :
    (exportFrameTimes 2 exportFrameRate).length = 60
    ∧ (exportFrameTimes 2 exportFrameRate)[30]? = some 1 := by
  have htot : totalFramesOf 2 exportFrameRate = 60 := by
    norm_num [totalFramesOf, exportFrameRate]
  have h := export_frame_schedule 2 exportFrameRate (by norm_num) (by norm_num [exportFrameRate])
  have hlen : (exportFrameTimes 2 exportFrameRate).length = 60 := by
    have := h.1
    rw [htot] at this
    exact_mod_cast this
  refine ⟨hlen, ?_⟩
  have h30 := h.2.2 30 (by omega)
  rw [List.getElem?_eq_getElem (by omega), h30]
  norm_num [exportFrameRate]

end FrameSchedule

section ExportCleanup

/-- Zero-padding of a frame number to five digits: embeds
`String(i).padStart(5, '0')` (`VideoPlayer.tsx` lines 339 and 357). -/
def padStart5 (s : String) : String :=
  String.mk (List.replicate (5 - s.length) '0') ++ s

/-- Name of the `i`-th transient frame image in the encoder working storage:
`frame-#####.jpg`. -/
def frameName (i : ℕ) : String := "frame-" ++ padStart5 (Nat.repr i) ++ ".jpg"

/-- Register a file in the encoder's shared working storage
(`ffmpeg.FS('writeFile', ...)`); overwriting keeps a single entry. -/
def fsWrite (fs : List String) (name : String) : List String :=
  if name ∈ fs then fs else fs ++ [name]

/-- Remove a file from the encoder's shared working storage
(`ffmpeg.FS('unlink', ...)`). -/
def fsUnlink (fs : List String) (name : String) : List String :=
  fs.filter (fun n => decide (n ≠ name))

/-- Frame files `frame-00000.jpg` through frame `k - 1` written in loop
order (`VideoPlayer.tsx` line 340). -/
def writeFrames (fs : List String) (k : ℕ) : List String :=
  (List.range k).foldl (fun acc i => fsWrite acc (frameName i)) fs

/-- Unlink of every frame file, embedding the success-path cleanup loop
(`VideoPlayer.tsx` lines 356-358). -/
def unlinkFrames (fs : List String) (k : ℕ) : List String :=
  (List.range k).foldl (fun acc i => fsUnlink acc (frameName i)) fs

/-- Failure mode of an export run: the image preload rejecting, the frame
loop failing just before writing frame `k` (meaningful for
`k < totalFrames`), the encoder run failing, or no failure. -/
inductive ExportFailure where
  | preloadFail
  | frameFail (k : ℕ)
  | encodeFail
  | noFailure
deriving DecidableEq

/-- State of the shared encoder working storage after one `handleExport` run
(`VideoPlayer.tsx` lines 200-369) on a job of `totalFrames` frames starting
from storage `fs0`. The source writes `input.mp3` (line 210), then the
frame files during the loop, runs the encoder (producing `output.mp4`), and
unlinks every transient file (lines 356-360) - but that cleanup block sits
inside the `try` after the success path, so on any failure the
`catch`/`finally` blocks only reset UI state and perform no unlink. -/
def runExport (totalFrames : ℕ) (failure : ExportFailure) (fs0 : List String) :
    List String :=
  match failure with
  | .preloadFail => fsWrite fs0 "input.mp3"
  | .frameFail k => writeFrames (fsWrite fs0 "input.mp3") (min k totalFrames)
  | .encodeFail => writeFrames (fsWrite fs0 "input.mp3") totalFrames
  | .noFailure =>
    fsUnlink
      (fsUnlink
        (unlinkFrames
          (fsWrite (writeFrames (fsWrite fs0 "input.mp3") totalFrames) "output.mp4")
          totalFrames)
        "input.mp3")
      "output.mp4"

/-- C7. Evaluation of the encoder-storage model at a two-frame job starting
from empty storage: the successful run leaves the storage empty, but a
preload failure leaves `input.mp3` registered, a failure at frame 1 leaves
`input.mp3` and `frame-00000.jpg`, and an encoder failure leaves
`input.mp3` and both frame files - cleanup does not execute on failure,
contradicting the claim. -/
theorem export_cleanup_on_failure_violated :
    runExport 2 .noFailure [] = []
    ∧ runExport 2 .preloadFail [] = ["input.mp3"]
    ∧ runExport 2 (.frameFail 1) [] = ["input.mp3", "frame-00000.jpg"]
    ∧ runExport 2 .encodeFail []
        = ["input.mp3", "frame-00000.jpg", "frame-00001.jpg"] := by
  refine ⟨?_, ?_, ?_, ?_⟩ <;> rfl

end ExportCleanup

section SrtParsing

/-- Strip carriage returns, embedding `replace(/\r/g, '')`
(`App.tsx` line 30). -/
def stripCR (s : String) : String :=
  String.mk (s.data.filter (fun c => decide (c ≠ '\r')))

/-- Split a character list at newline characters, keeping empty segments:
embeds JavaScript `split('\n')` (`App.tsx` line 33). -/
def splitLinesChars : List Char → List (List Char)
  | [] => [[]]
  | c :: rest =>
    if c = '\n' then [] :: splitLinesChars rest
    else
      match splitLinesChars rest with
      | [] => [[c]]
      | l :: ls => (c :: l) :: ls

/-- Group the line list into blocks at empty lines. On the trimmed,
carriage-return-free input this composes with `splitLinesChars` to the
source's `split(/\n\n+/)` followed by `split('\n')` per block: after
trimming, every empty line comes from a `\n\n+` separator and no block is
empty (a whitespace-only input yields no blocks here and its single
sub-two-line block is dropped by `parseBlockLines` there, with equal
results). -/
def groupBlocksAux : List (List Char) → List (List Char) → List (List (List Char))
  | [], acc => if acc = [] then [] else [acc.reverse]
  | l :: rest, acc =>
    if l = [] then
      if acc = [] then groupBlocksAux rest []
      else acc.reverse :: groupBlocksAux rest []
    else groupBlocksAux rest (l :: acc)

/-- Whether a character list starts with the SRT arrow `-->`. -/
def startsArrow : List Char → Bool
  | '-' :: '-' :: '>' :: _ => true
  | _ => false

/-- Whether a line contains the arrow separator: embeds
`line.includes('-->')` (`App.tsx` line 36). -/
def containsArrow : List Char → Bool
  | [] => false
  | c :: rest => startsArrow (c :: rest) || containsArrow rest

/-- Match one `\d\d:\d\d:\d\d[,.]\d\d\d` timecode at the start of the
character list, returning the twelve matched characters and the remainder:
embeds one group of the source's time-line pattern (`App.tsx` line 42). -/
def matchTC (cs : List Char) : Option (List Char × List Char) :=
  match cs with
  | a :: b :: c1 :: d :: e :: c2 :: f :: g :: s :: h :: i :: j :: rest =>
    if a.isDigit && b.isDigit && (c1 == ':') && d.isDigit && e.isDigit && (c2 == ':')
        && f.isDigit && g.isDigit && ((s == ',') || (s == '.'))
        && h.isDigit && i.isDigit && j.isDigit
    then some ([a, b, c1, d, e, c2, f, g, s, h, i, j], rest)
    else none
  | _ => none

/-- Match the full `TC --> TC` pattern at the start of the character list,
returning the two timecode groups. -/
def matchTimeLine (cs : List Char) : Option (List Char × List Char) :=
  match matchTC cs with
  | none => none
  | some (t1, rest1) =>
    match rest1 with
    | ' ' :: '-' :: '-' :: '>' :: ' ' :: rest2 =>
      match matchTC rest2 with
      | some (t2, _) => some (t1, t2)
      | none => none
    | _ => none

/-- Search the unanchored time pattern left to right in a line, embedding
`timeLine.match(/(\d{2}:\d{2}:\d{2}[,.]\d{3}) --> (\d{2}:\d{2}:\d{2}[,.]\d{3})/)`. -/
def searchTimeLine : List Char → Option (List Char × List Char)
  | [] => none
  | c :: rest =>
    match matchTimeLine (c :: rest) with
    | some r => some r
    | none => searchTimeLine rest

/-- Numeric value of a decimal digit character. -/
def digitVal (c : Char) : ℕ := c.toNat - '0'.toNat

/-- Seconds value of a matched twelve-character timecode group: embeds
`timecodeToSeconds` (`App.tsx` lines 25-28; the first comma is replaced by
a dot and the parts parsed as `HH * 3600 + MM * 60 + SS.mmm`) on the exact
shape the regex guarantees. -/
def timecodeToSeconds : List Char → ℚ
  | [a, b, _, d, e, _, f, g, _, h, i, j] =>
    ((digitVal a * 10 + digitVal b : ℕ) : ℚ) * 3600
      + ((digitVal d * 10 + digitVal e : ℕ) : ℚ) * 60
      + ((digitVal f * 10 + digitVal g : ℕ) : ℚ)
      + ((digitVal h * 100 + digitVal i * 10 + digitVal j : ℕ) : ℚ) / 1000
  | _ => 0

/-- Join line character lists with newline separators, embedding
`join('\n')` (`App.tsx` line 40). -/
def joinLines : List (List Char) → List Char
  | [] => []
  | [l] => l
  | l :: l2 :: ls => l ++ '\n' :: joinLines (l2 :: ls)

/-- Parse one subtitle block given as its list of lines: embeds the block
body of `parseSrt` (`App.tsx` lines 32-50). Blocks with fewer than two
lines, no arrow line, or an arrow line not matching the time pattern yield
`none`; otherwise the entry joins the lines after the time line and
converts the two matched timecodes. -/
def parseBlockLines (lines : List (List Char)) : Option TimedLyric :=
  if lines.length < 2 then none
  else
    match findIdxQ containsArrow lines with
    | none => none
    | some ti =>
      if ti + 1 > lines.length then none
      else
        match searchTimeLine (lines.getD ti []) with
        | none => none
        | some (t1, t2) =>
          some ⟨String.mk (joinLines (lines.drop (ti + 1))),
            timecodeToSeconds t1, timecodeToSeconds t2⟩

/-- The SRT parser (`parseSrt`, `App.tsx` lines 24-51): trim, strip
carriage returns, split into blank-line-separated blocks, parse each block
and keep the successes. -/
def parseSrt (srt : String) : List TimedLyric :=
  ((groupBlocksAux (splitLinesChars (stripCR (jsTrim srt)).data) []).map
    parseBlockLines).reduceOption

/-- Import-failure flag of `handleSrtImport` (`App.tsx` lines 141-145): the
user-facing error alert fires exactly when parsing yields zero entries. -/
def srtImportFails (srt : String) : Bool := (parseSrt srt).isEmpty

/-- C8 counterexample. The single-block input
`"00:00:01,000 --> 00:00:02,000"` consists of one line that contains the
arrow separator and matches the time pattern, so by the claim it is not
dropped and the parser should return its entry; yet the code drops every
block with fewer than two lines, so the parser returns the empty list and
the zero-entry error is surfaced. -/
theorem parseSrt_counterexample :
    containsArrow ("00:00:01,000 --> 00:00:02,000").data = true
    ∧ (searchTimeLine ("00:00:01,000 --> 00:00:02,000").data).isSome = true
    ∧ (splitLinesChars (stripCR (jsTrim "00:00:01,000 --> 00:00:02,000")).data).length = 1
    ∧ parseSrt "00:00:01,000 --> 00:00:02,000" = []
    ∧ srtImportFails "00:00:01,000 --> 00:00:02,000" = true := by
  refine ⟨?_, ?_, ?_, ?_, ?_⟩ <;> rfl

/-- C8 amended. The parser is total and drops exactly the blocks with fewer
than two lines, with no line containing the arrow separator, or whose first
arrow line does not match the time pattern; every kept block contributes
the entry joining its post-time-line text with the two converted
timecodes; and the user-facing error fires exactly when the whole input
yields zero entries. -/
theorem parseSrt_spec :
    (∀ (lines : List (List Char)),
      parseBlockLines lines = none ↔
        (lines.length < 2
          ∨ findIdxQ containsArrow lines = none
          ∨ ∃ ti, findIdxQ containsArrow lines = some ti
              ∧ searchTimeLine (lines.getD ti []) = none))
    ∧ (∀ (lines : List (List Char)) (e : TimedLyric),
        parseBlockLines lines = some e ↔
          ∃ ti t1 t2, 2 ≤ lines.length
            ∧ findIdxQ containsArrow lines = some ti
            ∧ searchTimeLine (lines.getD ti []) = some (t1, t2)
            ∧ e = ⟨String.mk (joinLines (lines.drop (ti + 1))),
                timecodeToSeconds t1, timecodeToSeconds t2⟩)
    ∧ (∀ (srt : String), srtImportFails srt = true ↔ parseSrt srt = []) := by
  refine ⟨?_, ?_, ?_⟩
  · intro lines
    by_cases h2 : lines.length < 2
    · simp [parseBlockLines, h2]
    · rcases hfi : findIdxQ containsArrow lines with _ | ti
      · simp [parseBlockLines, h2, hfi]
      · have hti : ti < lines.length := by
          rcases (findIdxQ_eq_some_iff _ _ _).mp hfi with ⟨hany, _⟩
          rcases any_getElem_eq_true_iff.mp hany with ⟨hlt, _⟩
          exact hlt
        have hle : ¬ lines.length < ti + 1 := Nat.not_lt.mpr (Nat.succ_le_of_lt hti)
        rcases hst : searchTimeLine (lines.getD ti []) with _ | ⟨t1, t2⟩ <;>
          rw [List.getD_eq_getElem?_getD] at hst <;>
          simp [parseBlockLines, h2, hfi, hst, hle]
  · intro lines e
    by_cases h2 : lines.length < 2
    · simp only [parseBlockLines, if_pos h2, reduceCtorEq, false_iff, not_exists, not_and]
      intro ti t1 t2 hlen
      omega
    · rcases hfi : findIdxQ containsArrow lines with _ | ti
      · simp [parseBlockLines, h2, hfi]
      · have hti : ti < lines.length := by
          rcases (findIdxQ_eq_some_iff _ _ _).mp hfi with ⟨hany, _⟩
          rcases any_getElem_eq_true_iff.mp hany with ⟨hlt, _⟩
          exact hlt
        have hle : ¬ lines.length < ti + 1 := Nat.not_lt.mpr (Nat.succ_le_of_lt hti)
        rcases hst : searchTimeLine (lines.getD ti []) with _ | ⟨t1, t2⟩ <;>
          rw [List.getD_eq_getElem?_getD] at hst
        · simp [parseBlockLines, h2, hfi, hst, hle, Nat.not_lt.mp h2]
        · simp [parseBlockLines, h2, hfi, hst, hle, Nat.not_lt.mp h2]
          constructor
          · intro h
            exact ⟨t1, t2, ⟨rfl, rfl⟩, h.symm⟩
          · rintro ⟨x, y, ⟨rfl, rfl⟩, h⟩
            exact h.symm
  · intro srt
    rw [srtImportFails, List.isEmpty_iff]

end SrtParsing

section StanzaGrouping

/-- Lines the background-generation collaborator actually processes
(`geminiService`, `generateVisualsForLyrics`): the filter
`l.text && l.text.trim() !== '' && l.text !== 'END'` - nonempty text,
nonempty after trimming, and not the literal sentinel `END`. -/
def lyricsToProcess (ls : List TimedLyric) : List TimedLyric :=
  ls.filter (fun l => decide (l.text ≠ "") && realText l && decide (l.text ≠ "END"))

/-- A stanza assembled for image generation: joined text and the covering
time window. -/
structure Stanza where
  text : String
  startTime : ℚ
  endTime : ℚ
deriving DecidableEq

/-- Grouping of the processed lines two per stanza (`generateVisualsForLyrics`,
the `for (i += 2)` loop): each chunk's text is joined with a newline, the
window runs from the chunk's first line's start to its last line's end; an
odd count leaves a final one-line stanza. -/
def groupStanzas : List TimedLyric → List Stanza
  | [] => []
  | [l] => [⟨l.text, l.startTime, l.endTime⟩]
  | a :: b :: rest => ⟨a.text ++ "\n" ++ b.text, a.startTime, b.endTime⟩ :: groupStanzas rest

/-- Stanzas generated for a lyric list: filter then group. -/
def stanzasOf (ls : List TimedLyric) : List Stanza :=
  groupStanzas (lyricsToProcess ls)

/-- One entry of the prompt-generation model's parsed response. -/
structure PromptEntry where
  stanza : String
  prompt : String
deriving DecidableEq

/-- One image-generation task handed to the image model. -/
structure ImageGenerationTask where
  prompt : String
  startTime : ℚ
  endTime : ℚ
deriving DecidableEq

/-- The generic per-song fallback description used when the prompt model
returned no entry matching a stanza's text. -/
def genericPrompt (songTitle : String) : String :=
  "A beautiful abstract visualization of the feeling of the song \x27"
    ++ songTitle ++ "\x27"

/-- Task assembly (`generateVisualsForLyrics`, the `tasks` map): each
stanza keeps its window; its prompt is the matching model entry's prompt,
or the generic per-song description when no entry matches - the stanza is
never skipped. -/
def mkTasks (stanzas : List Stanza) (generatedPrompts : List PromptEntry)
    (songTitle : String) : List ImageGenerationTask :=
  stanzas.map (fun stanza =>
    match generatedPrompts.find? (fun p => decide (p.stanza = stanza.text)) with
    | some fp => ⟨fp.prompt, stanza.startTime, stanza.endTime⟩
    | none => ⟨genericPrompt songTitle, stanza.startTime, stanza.endTime⟩)

/-- A default line for total indexing in statements. -/
def dummyLine : TimedLyric := ⟨"", 0, 0⟩

/-- A default stanza for total indexing in statements. -/
def dummyStanza : Stanza := ⟨"", 0, 0⟩

/-- C9 counterexample. The list `[{text:"END",[0,1)}, {text:"A",[1,2)}]`
consists of two real lyric lines (both texts nonempty after trimming), so
by the claim they form one two-line stanza covering `[0, 2)`; but the code
also filters out the literal text `END`, producing the single one-line
stanza `{text:"A",[1,2)}` instead. -/
theorem stanza_grouping_counterexample :
    realText ⟨"END", 0, 1⟩ = true
    ∧ realText ⟨"A", 1, 2⟩ = true
    ∧ stanzasOf [⟨"END", 0, 1⟩, ⟨"A", 1, 2⟩] = [⟨"A", 1, 2⟩]
    ∧ stanzasOf [⟨"END", 0, 1⟩, ⟨"A", 1, 2⟩] ≠ [⟨"END\nA", 0, 2⟩] := by
  refine ⟨rfl, rfl, rfl, ?_⟩
  intro h
  have h2 : ("A" : String) = "END\nA" :=
    congrArg (fun l => (List.getD l 0 dummyStanza).text) h
  exact absurd h2 (by decide)

/-- Stanza count of the two-per-chunk grouping. -/
theorem groupStanzas_length (ls : List TimedLyric) :
    (groupStanzas ls).length = (ls.length + 1) / 2 := by
  induction ls using groupStanzas.induct with
  | case1 => rfl
  | case2 l => simp [groupStanzas]
  | case3 a b rest ih =>
    simp only [groupStanzas, List.length_cons, ih]
    omega

/-- Contents of the `k`-th stanza: lines `2k` and `2k + 1` joined when both
exist, the single line `2k` when it is the last of an odd-length list. -/
theorem groupStanzas_getD (ls : List TimedLyric) (k : ℕ) :
    (2 * k + 1 < ls.length →
      (groupStanzas ls).getD k dummyStanza =
        ⟨(ls.getD (2 * k) dummyLine).text ++ "\n" ++ (ls.getD (2 * k + 1) dummyLine).text,
         (ls.getD (2 * k) dummyLine).startTime, (ls.getD (2 * k + 1) dummyLine).endTime⟩)
    ∧ (2 * k + 1 = ls.length →
      (groupStanzas ls).getD k dummyStanza =
        ⟨(ls.getD (2 * k) dummyLine).text, (ls.getD (2 * k) dummyLine).startTime,
         (ls.getD (2 * k) dummyLine).endTime⟩) := by
  induction k generalizing ls with
  | zero =>
    rcases ls with _ | ⟨a, _ | ⟨b, rest⟩⟩
    · constructor <;> intro h <;> simp at h
    · constructor
      · intro h
        simp at h
      · intro _
        rfl
    · constructor
      · intro _
        rfl
      · intro h
        simp only [List.length_cons] at h
        omega
  | succ k ih =>
    rcases ls with _ | ⟨a, _ | ⟨b, rest⟩⟩
    · constructor <;> intro h <;> simp only [List.length_nil] at h <;> omega
    · constructor <;> intro h <;> simp only [List.length_singleton] at h <;> omega
    · have h1 : (groupStanzas (a :: b :: rest)).getD (k + 1) dummyStanza
          = (groupStanzas rest).getD k dummyStanza := rfl
      have h2k : 2 * (k + 1) = 2 * k + 1 + 1 := by ring
      have hidx0 : (a :: b :: rest).getD (2 * (k + 1)) dummyLine
          = rest.getD (2 * k) dummyLine := by
        rw [h2k, List.getD_cons_succ, List.getD_cons_succ]
      have hidx1 : (a :: b :: rest).getD (2 * (k + 1) + 1) dummyLine
          = rest.getD (2 * k + 1) dummyLine := by
        rw [h2k, List.getD_cons_succ, List.getD_cons_succ]
      constructor
      · intro h
        rw [h1, hidx0, hidx1]
        refine (ih rest).1 ?_
        simp only [List.length_cons] at h
        omega
      · intro h
        rw [h1, hidx0]
        refine (ih rest).2 ?_
        simp only [List.length_cons] at h
        omega


/-- C9 amended. For every nonempty list of lines that all pass the
collaborator's filter (nonempty text, nonempty after trimming, and not the
literal `END` sentinel), the stanzas group the lines exactly two per
stanza in order, with the last stanza holding one line when the count is
odd; each stanza's window runs from its first line's `startTime` to its
last line's `endTime`; and a stanza whose text matches no prompt entry is
assigned the generic per-song description with its window kept - it is
never skipped. -/
theorem stanza_grouping_spec (ls : List TimedLyric)
    (hne : ls ≠ [])
    (hfilter : ∀ l ∈ ls, l.text ≠ "" ∧ realText l = true ∧ l.text ≠ "END") :
    lyricsToProcess ls = ls
    ∧ (stanzasOf ls).length = (ls.length + 1) / 2
    ∧ 0 < (stanzasOf ls).length
    ∧ (∀ k, 2 * k + 1 < ls.length →
        (stanzasOf ls).getD k dummyStanza =
          ⟨(ls.getD (2 * k) dummyLine).text ++ "\n" ++ (ls.getD (2 * k + 1) dummyLine).text,
           (ls.getD (2 * k) dummyLine).startTime, (ls.getD (2 * k + 1) dummyLine).endTime⟩)
    ∧ (∀ k, 2 * k + 1 = ls.length →
        (stanzasOf ls).getD k dummyStanza =
          ⟨(ls.getD (2 * k) dummyLine).text, (ls.getD (2 * k) dummyLine).startTime,
           (ls.getD (2 * k) dummyLine).endTime⟩)
    ∧ (∀ (prompts : List PromptEntry) (title : String),
        (mkTasks (stanzasOf ls) prompts title).length = (stanzasOf ls).length
        ∧ ∀ k, k < (stanzasOf ls).length →
            ((mkTasks (stanzasOf ls) prompts title).getD k ⟨"", 0, 0⟩).startTime
                = ((stanzasOf ls).getD k dummyStanza).startTime
            ∧ ((mkTasks (stanzasOf ls) prompts title).getD k ⟨"", 0, 0⟩).endTime
                = ((stanzasOf ls).getD k dummyStanza).endTime
            ∧ (prompts.find?
                  (fun p => decide (p.stanza = ((stanzasOf ls).getD k dummyStanza).text))
                    = none →
                ((mkTasks (stanzasOf ls) prompts title).getD k ⟨"", 0, 0⟩).prompt
                  = genericPrompt title)
            ∧ (∀ fp, prompts.find?
                  (fun p => decide (p.stanza = ((stanzasOf ls).getD k dummyStanza).text))
                    = some fp →
                ((mkTasks (stanzasOf ls) prompts title).getD k ⟨"", 0, 0⟩).prompt
                  = fp.prompt)) := by
  have hid : lyricsToProcess ls = ls := by
    rw [lyricsToProcess, List.filter_eq_self]
    intro l hl
    rcases hfilter l hl with ⟨h1, h2, h3⟩
    simp [h1, h2, h3]
  have hs : stanzasOf ls = groupStanzas ls := by rw [stanzasOf, hid]
  have hlen : (stanzasOf ls).length = (ls.length + 1) / 2 := by
    rw [hs, groupStanzas_length]
  refine ⟨hid, hlen, ?_, ?_, ?_, ?_⟩
  · have : 0 < ls.length := List.length_pos.mpr hne
    omega
  · intro k hk
    rw [hs]
    exact (groupStanzas_getD ls k).1 hk
  · intro k hk
    rw [hs]
    exact (groupStanzas_getD ls k).2 hk
  · intro prompts title
    have hmap : ∀ k, k < (stanzasOf ls).length →
        (mkTasks (stanzasOf ls) prompts title).getD k ⟨"", 0, 0⟩ =
          (match prompts.find?
              (fun p => decide (p.stanza = ((stanzasOf ls).getD k dummyStanza).text)) with
            | some fp => (⟨fp.prompt, ((stanzasOf ls).getD k dummyStanza).startTime,
                ((stanzasOf ls).getD k dummyStanza).endTime⟩ : ImageGenerationTask)
            | none => ⟨genericPrompt title, ((stanzasOf ls).getD k dummyStanza).startTime,
                ((stanzasOf ls).getD k dummyStanza).endTime⟩) := by
      intro k hk
      have hk2 : k < (mkTasks (stanzasOf ls) prompts title).length := by
        rw [mkTasks, List.length_map]
        exact hk
      rw [List.getD_eq_getElem?_getD, List.getElem?_eq_getElem hk2]
      rw [List.getD_eq_getElem?_getD, List.getElem?_eq_getElem hk]
      simp only [mkTasks, List.getElem_map, Option.getD_some]
    refine ⟨by rw [mkTasks, List.length_map], ?_⟩
    intro k hk
    rcases hfind : prompts.find?
        (fun p => decide (p.stanza = ((stanzasOf ls).getD k dummyStanza).text))
        with _ | fp
    · rw [hmap k hk, hfind]
      exact ⟨rfl, rfl, fun _ => rfl, fun fp2 h2 => by cases h2⟩
    · rw [hmap k hk, hfind]
      refine ⟨rfl, rfl, ?_, ?_⟩
      · intro h
        cases h
      · intro fp2 h2
        injection h2 with h3
        exact congrArg PromptEntry.prompt h3

/-- Witness for C9 at the three-line list `A[0,2), B[2,4), C[4,6)`: two
stanzas `A\nB` over `[0,4)` and `C` over `[4,6)`, and with an empty prompt
response the first task falls back to the generic per-song description. -/
theorem stanza_grouping_spec_witness :
    (stanzasOf [⟨"A", 0, 2⟩, ⟨"B", 2, 4⟩, ⟨"C", 4, 6⟩]).length = 2
    ∧ (stanzasOf [⟨"A", 0, 2⟩, ⟨"B", 2, 4⟩, ⟨"C", 4, 6⟩]).getD 0 dummyStanza = ⟨"A\nB", 0, 4⟩
    ∧ (stanzasOf [⟨"A", 0, 2⟩, ⟨"B", 2, 4⟩, ⟨"C", 4, 6⟩]).getD 1 dummyStanza = ⟨"C", 4, 6⟩
    ∧ ((mkTasks (stanzasOf [⟨"A", 0, 2⟩, ⟨"B", 2, 4⟩, ⟨"C", 4, 6⟩]) [] "Song").getD 0
        ⟨"", 0, 0⟩).prompt = genericPrompt "Song" := by
  have hfilter : ∀ l ∈ ([⟨"A", 0, 2⟩, ⟨"B", 2, 4⟩, ⟨"C", 4, 6⟩] : List TimedLyric),
      l.text ≠ "" ∧ realText l = true ∧ l.text ≠ "END" := by
    intro l hl
    simp only [List.mem_cons, List.not_mem_nil, or_false] at hl
    rcases hl with rfl | rfl | rfl <;> exact ⟨by simp, rfl, by simp⟩
  have h := stanza_grouping_spec [⟨"A", 0, 2⟩, ⟨"B", 2, 4⟩, ⟨"C", 4, 6⟩] (by simp) hfilter
  refine ⟨by simpa using h.2.1, ?_, ?_, ?_⟩
  · simpa using h.2.2.2.1 0 (by norm_num)
  · simpa using h.2.2.2.2.1 1 (by norm_num)
  · obtain ⟨_, hk⟩ := h.2.2.2.2.2 [] "Song"
    exact (hk 0 h.2.2.1).2.2.1 rfl

end StanzaGrouping

section TimingHandoff

/-- Lyric-list transformation of `handleTimingComplete` (`App.tsx` lines
99-120): an empty capture passes through; otherwise a silent intro line
`{text:"", 0, firstStart}` is prepended exactly when the first captured
line starts later than `0.1` seconds, and the captured lines follow
unmodified. -/
def handleTimingCompleteLyrics (lyrics : List TimedLyric) : List TimedLyric :=
  match lyrics with
  | [] => []
  | first :: rest =>
    if 1/10 < first.startTime then ⟨"", 0, first.startTime⟩ :: first :: rest
    else first :: rest

/-- C10. For every nonempty captured lyric list, the sequence handed to the
player is the captured list prefixed with exactly one empty-text gap line
spanning `[0, firstLine.startTime)` when the first captured line starts
later than `0.1` seconds (so the handed-off sequence then covers time 0),
and is the captured list unchanged otherwise. -/
theorem timing_handoff_gap_line (lyrics : List TimedLyric) (first : TimedLyric)
    (h : lyrics.head? = some first) :
    ((1/10 : ℚ) < first.startTime →
      handleTimingCompleteLyrics lyrics = ⟨"", 0, first.startTime⟩ :: lyrics)
    ∧ (first.startTime ≤ 1/10 →
      handleTimingCompleteLyrics lyrics = lyrics) := by
  rcases lyrics with _ | ⟨a, rest⟩
  · simp at h
  · have ha : a = first := by simpa using h
    subst ha
    have hb : handleTimingCompleteLyrics (a :: rest)
        = if 1/10 < a.startTime then ⟨"", 0, a.startTime⟩ :: a :: rest
          else a :: rest := rfl
    constructor
    · intro hgt
      rw [hb, if_pos hgt]
    · intro hle
      rw [hb, if_neg (not_lt.mpr hle)]

/-- Witness for C10: a capture starting at `5 > 0.1` gains the gap line
`[0, 5)`; a capture starting at `0 ≤ 0.1` is handed over unchanged. -/
theorem timing_handoff_gap_line_witness :
    handleTimingCompleteLyrics [⟨"A", 5, 8⟩] = [⟨"", 0, 5⟩, ⟨"A", 5, 8⟩]
    ∧ handleTimingCompleteLyrics [⟨"B", 0, 2⟩] = [⟨"B", 0, 2⟩] := by
  constructor
  · exact (timing_handoff_gap_line [⟨"A", 5, 8⟩] ⟨"A", 5, 8⟩ rfl).1 (by norm_num)
  · exact (timing_handoff_gap_line [⟨"B", 0, 2⟩] ⟨"B", 0, 2⟩ rfl).2 (by norm_num)

end TimingHandoff

end LyricVideo
